import Mathlib

/-!
# Verification of the agentic_flow orchestration core

A shallow embedding, in Lean 4, of the parts of the `agentic_flow` Python
repository that its specification makes claims about:

* `src/core/state.py`       — `AgentState`, `suspend` / `resume`
* `src/core/checkpoint.py`  — SQLite-backed `CheckpointManager`
* `src/engine/hitl.py`      — `HITLManager.suspend` / `HITLManager.resume`
* `src/utils/rate_limiter.py` — sliding-window `RateLimiter.allow`
* `src/utils/validator.py`  — fenced-code-block extraction and validation
* `src/agents/critic.py`    — `critique` parse policy
* `src/engine/adversarial.py` — `DebateLoop.run`
* `src/utils/semantic_cache.py` — cacheability gate, `get` / `put`
* `src/agents/worker.py`    — bounded tool-use (react) loop

Modelling conventions:

* Python dicts with string keys become ordered association lists
  (`List (String × _)`) with a later-wins `dictSet` update, preserving
  insertion order and key uniqueness.
* Machine/float arithmetic: Python `int` becomes `ℤ`, wall-clock times and
  scores (`float`) become `ℚ`.
* External collaborators (the SQLite engine's durability, `ast.parse`,
  `json.loads` results, the chat-completion provider, the embedding model
  and vector store, wall clocks and UUIDs) are opaque: they enter as
  explicit oracle parameters or as parse-outcome data carried on inputs,
  exactly at the boundary where the Python code calls them.
* Logging calls have no behavioural effect and are dropped.
-/

namespace AgenticFlow

/-- JSON-like dynamic values (Python `Any` at dict boundaries). -/
inductive JVal where
  | str (s : String)
  | num (q : ℚ)
  | boolean (b : Bool)
  | null
  | arr (xs : List JVal)
  | obj (kvs : List (String × JVal))

/-- Python dict assignment `d[k] = v`: replace in place if the key exists,
otherwise append (insertion order preserved). -/
def dictSet {α : Type} (d : List (String × α)) (k : String) (v : α) :
    List (String × α) :=
  if d.any (fun p => p.1 == k) then
    d.map (fun p => if p.1 == k then (k, v) else p)
  else d ++ [(k, v)]

/-- Python `d.update(new)`: apply `dictSet` for each pair of `new` in order. -/
def dictUpdate {α : Type} (d new : List (String × α)) : List (String × α) :=
  new.foldl (fun acc kv => dictSet acc kv.1 kv.2) d

/-- Python `d.pop(k, None)`'s effect on the dict: drop the key. -/
def dictErase {α : Type} (d : List (String × α)) (k : String) :
    List (String × α) :=
  d.filter (fun p => !(p.1 == k))

/-- Python `d.get(k)` on an association list. -/
def dictGet {α : Type} (d : List (String × α)) (k : String) : Option α :=
  (d.find? (fun p => p.1 == k)).map (fun p => p.2)

theorem length_le_dictSet {α : Type} (d : List (String × α)) (k : String)
    (v : α) : d.length ≤ (dictSet d k v).length := by
  unfold dictSet
  by_cases h : d.any (fun p => p.1 == k)
  · simp [h]
  · simp [h]

theorem length_le_dictUpdate {α : Type} (d new : List (String × α)) :
    d.length ≤ (dictUpdate d new).length := by
  unfold dictUpdate
  induction new generalizing d with
  | nil => simp
  | cons kv rest ih =>
      exact le_trans (length_le_dictSet d kv.1 kv.2) (ih (dictSet d kv.1 kv.2))

/-! ## `src/core/state.py` -/

/-- `SessionStatus` enum. -/
inductive SessionStatus where
  | RUNNING
  | PAUSED
  | SUSPENDED
  | COMPLETED
  | FAILED
deriving DecidableEq

/-- `CheckpointType` enum. -/
inductive CheckpointType where
  | TRANSACTION
  | MILESTONE
deriving DecidableEq

/-- `MessageModel` (role-tagged message). Timestamps come from the wall
clock, an external collaborator, so they are plain strings here. -/
structure MessageModel where
  role : String
  content : String
  timestamp : String := ""
  metadata : List (String × JVal) := []

/-- `SnapshotMetadata` (checkpoint metadata). -/
structure SnapshotMetadata where
  created_at : String := ""
  elapsed_ms : ℚ := 0
  input_tokens : ℤ := 0
  output_tokens : ℤ := 0
  estimated_cost_usd : ℚ := 0
  checkpoint_type : Option CheckpointType := none
  label : String := ""

/-- `AgentState` — the serializable session state shared across the whole
pipeline. The `session_id` default factory (`uuid4`) is external, so fresh
states carry an explicitly supplied id. -/
structure AgentState where
  session_id : String := ""
  step : ℤ := 0
  status : SessionStatus := SessionStatus.RUNNING
  conversation_history : List (List (String × JVal)) := []
  history : List MessageModel := []
  internal_summary : String := ""
  entities : List (String × JVal) := []
  artifacts : List (String × JVal) := []
  current_agent : Option String := none
  next_step : String := ""
  retry_count : ℤ := 0
  turn_number : ℤ := 0
  active_persona : String := "worker"
  execution_pointer : String := ""
  metadata : SnapshotMetadata := {}
  hitl_context : List (String × JVal) := []

instance : Inhabited AgentState := ⟨{}⟩

/-- `AgentState.suspend`: switch to SUSPENDED and install the HITL context
dict `{reason, suspended_at, **context}` (dict-literal followed by the
splat, so `context` keys override). `now` is the wall-clock ISO string. -/
def AgentState.suspend (st : AgentState) (reason : String) (now : String)
    (context : List (String × JVal)) : AgentState :=
  { st with
    status := SessionStatus.SUSPENDED,
    hitl_context :=
      dictUpdate [("reason", JVal.str reason), ("suspended_at", JVal.str now)]
        context }

/-- One key/value step of the `resume` patch loop. A non-dict value under
the keys `entities` or `artifacts` makes Python's `dict.update` raise
`TypeError`; that is the `none` outcome. -/
def patchOne (acc : AgentState) (k : String) (v : JVal) : Option AgentState :=
  if k == "entities" then
    match v with
    | JVal.obj kvs => some { acc with entities := dictUpdate acc.entities kvs }
    | _ => none
  else if k == "artifacts" then
    match v with
    | JVal.obj kvs =>
        some { acc with artifacts := dictUpdate acc.artifacts kvs }
    | _ => none
  else some { acc with artifacts := dictSet acc.artifacts k v }

/-- Folds `patchOne` over the `modified_data` items, propagating a raise. -/
def patchAll (acc : AgentState) : List (String × JVal) → Option AgentState
  | [] => some acc
  | kv :: rest =>
      match patchOne acc kv.1 kv.2 with
      | none => none
      | some acc2 => patchAll acc2 rest

/-- `AgentState.resume`: back to RUNNING, optionally patch
entities/artifacts from `modified_data`, then clear `hitl_context`.
Calling with `[]` models both `resume()` and a falsy `modified_data`.
`none` models the `TypeError` raise described at `patchOne`. -/
def AgentState.resume (st : AgentState) (modified_data : List (String × JVal)) :
    Option AgentState :=
  match patchAll { st with status := SessionStatus.RUNNING } modified_data with
  | none => none
  | some st2 => some { st2 with hitl_context := [] }

/-! ## `src/core/checkpoint.py`

The SQLite table `checkpoints(id AUTOINCREMENT, session_id, step_number,
checkpoint_type, state_json, label, created_at, UNIQUE(session_id,
step_number, checkpoint_type))` becomes a list of rows plus the
autoincrement counter.  `state_json` round-trips losslessly through
pydantic (an external collaborator), so rows store the `AgentState`
directly.  `created_at` comes from the wall clock and is omitted. -/

structure CheckpointRow where
  id : ℕ
  session_id : String
  step_number : ℤ
  checkpoint_type : CheckpointType
  state : AgentState
  label : String

structure CheckpointStore where
  rows : List CheckpointRow
  next_id : ℕ

/-- The empty store right after `_init_db`. -/
def CheckpointStore.empty : CheckpointStore := ⟨[], 1⟩

/-- Predicate for the UNIQUE key conflict of `INSERT OR REPLACE`. -/
def rowConflicts (r : CheckpointRow) (sid : String) (stp : ℤ)
    (ct : CheckpointType) : Bool :=
  r.session_id == sid && r.step_number == stp &&
    decide (r.checkpoint_type = ct)

/-- `CheckpointManager.save_checkpoint`, success path: `INSERT OR REPLACE`
deletes any row with the same `(session_id, step_number, checkpoint_type)`
and inserts a fresh row with the next autoincrement id. -/
def save_checkpoint (db : CheckpointStore) (state : AgentState)
    (checkpoint_type : CheckpointType) (label : String) : CheckpointStore :=
  { rows :=
      db.rows.filter
        (fun r => !(rowConflicts r state.session_id state.step checkpoint_type))
        ++ [⟨db.next_id, state.session_id, state.step, checkpoint_type,
             state, label⟩],
    next_id := db.next_id + 1 }

/-- One comparison step of the `ORDER BY step_number DESC, id DESC LIMIT 1`
selection. -/
def latestStep (acc : Option CheckpointRow) (r : CheckpointRow) :
    Option CheckpointRow :=
  match acc with
  | none => some r
  | some b =>
      if b.step_number < r.step_number ∨
          (b.step_number = r.step_number ∧ b.id < r.id) then some r
      else some b

/-- Fold picking the row maximal by `(step_number, id)` — `ORDER BY
step_number DESC, id DESC LIMIT 1`. -/
def pickLatest (rows : List CheckpointRow) : Option CheckpointRow :=
  rows.foldl latestStep none

/-- One comparison step of the `ORDER BY id DESC LIMIT 1` selection. -/
def maxIdStep (acc : Option CheckpointRow) (r : CheckpointRow) :
    Option CheckpointRow :=
  match acc with
  | none => some r
  | some b => if b.id < r.id then some r else some b

/-- Fold picking the row maximal by `id` — `ORDER BY id DESC LIMIT 1`. -/
def pickMaxId (rows : List CheckpointRow) : Option CheckpointRow :=
  rows.foldl maxIdStep none

/-- The row selected by `CheckpointManager.load_checkpoint`'s SELECT. -/
def load_checkpoint_row (db : CheckpointStore) (session_id : String)
    (step : Option ℤ) : Option CheckpointRow :=
  match step with
  | some k =>
      pickMaxId (db.rows.filter
        (fun r => r.session_id == session_id && r.step_number == k))
  | none =>
      pickLatest (db.rows.filter (fun r => r.session_id == session_id))

/-- `CheckpointManager.load_checkpoint`, success path: deserialize the
selected row's state; `none` when no row matches. -/
def load_checkpoint (db : CheckpointStore) (session_id : String)
    (step : Option ℤ) : Option AgentState :=
  (load_checkpoint_row db session_id step).map (fun r => r.state)

/-- Insertion (by ascending `(step_number, id)`) used to model `ORDER BY
step_number ASC, id ASC`. -/
def insertByStepId (r : CheckpointRow) : List CheckpointRow →
    List CheckpointRow
  | [] => [r]
  | x :: xs =>
      if r.step_number < x.step_number ∨
          (r.step_number = x.step_number ∧ r.id ≤ x.id) then r :: x :: xs
      else x :: insertByStepId r xs

/-- `CheckpointManager.list_checkpoints`: the session's rows ordered by
`(step_number, id)` ascending. -/
def list_checkpoints (db : CheckpointStore) (session_id : String) :
    List CheckpointRow :=
  (db.rows.filter (fun r => r.session_id == session_id)).foldr
    insertByStepId []

/-- `CheckpointManager.rollback`: load the checkpoint at `step`; when found,
delete every checkpoint of the session with `step_number > step`. When the
load finds nothing the store is untouched. -/
def rollback (db : CheckpointStore) (session_id : String) (step : ℤ) :
    Option AgentState × CheckpointStore :=
  match load_checkpoint db session_id (some step) with
  | none => (none, db)
  | some st =>
      (some st,
        { db with
          rows := db.rows.filter
            (fun r => !(r.session_id == session_id &&
              decide (step < r.step_number))) })

/-- `CheckpointManager.delete_session`. -/
def delete_session (db : CheckpointStore) (session_id : String) :
    CheckpointStore :=
  { db with rows := db.rows.filter (fun r => !(r.session_id == session_id)) }

/-! ## `src/engine/hitl.py` -/

/-- One `_pending_approvals` entry. -/
structure PendingInfo where
  reason : String
  context : List (String × JVal)
  step : ℤ

/-- `HITLManager.suspend`: suspend the state, persist a TRANSACTION
checkpoint labelled `HITL: {reason}`, record the pending approval. Returns
the mutated state together with the updated store and pending map. -/
def hitlSuspend (db : CheckpointStore)
    (pending : List (String × PendingInfo)) (state : AgentState)
    (reason : String) (now : String) (context : List (String × JVal)) :
    AgentState × CheckpointStore × List (String × PendingInfo) :=
  let st := state.suspend reason now context
  let db2 := save_checkpoint db st CheckpointType.TRANSACTION
    ("HITL: " ++ reason)
  let pending2 := dictSet pending st.session_id ⟨reason, context, st.step⟩
  (st, db2, pending2)

/-- Result of `HITLManager.resume`: the value returned to the caller plus
the updated store and pending map. -/
structure HITLResumeResult where
  result : Option AgentState
  store : CheckpointStore
  pending : List (String × PendingInfo)

/-- `HITLManager.resume`. Reloads the latest checkpoint; `reject` flips the
status to FAILED, saves a MILESTONE checkpoint and returns nothing;
`modify` with truthy data patches then resumes; anything else resumes
plainly. The outer `none` models the `TypeError` raise from a malformed
`modify` patch (see `patchOne`). -/
def hitlResume (db : CheckpointStore)
    (pending : List (String × PendingInfo)) (session_id : String)
    (action : String) (modified_data : Option (List (String × JVal))) :
    Option HITLResumeResult :=
  match load_checkpoint db session_id none with
  | none => some ⟨none, db, pending⟩
  | some state =>
      if action == "reject" then
        some ⟨none,
          save_checkpoint db { state with status := SessionStatus.FAILED }
            CheckpointType.MILESTONE "HITL: Rejected by human",
          dictErase pending session_id⟩
      else
        match state.resume
            (match modified_data with
             | some d => if action == "modify" && !d.isEmpty then d else []
             | none => []) with
        | none => none
        | some st => some ⟨some st, db, dictErase pending session_id⟩

/-! ## `src/utils/rate_limiter.py`

Wall-clock instants (`time.time()` floats) are rationals. The deque of
call timestamps keeps arrival order; `allow` pops expired entries from the
left (`while self._calls and self._calls[0] < now - self.window`), which is
`dropWhile` on the list. -/

structure RateLimiter where
  max_calls : ℕ
  window : ℚ
  calls : List ℚ

/-- `RateLimiter(max_calls, window_sec)` constructor: empty deque. -/
def mkRateLimiter (max_calls : ℕ) (window : ℚ) : RateLimiter :=
  ⟨max_calls, window, []⟩

/-- The deque after the expiry loop at instant `now`. -/
def RateLimiter.pruned (rl : RateLimiter) (now : ℚ) : List ℚ :=
  rl.calls.dropWhile (fun t => decide (t < now - rl.window))

/-- `RateLimiter.allow` at instant `now`: grant iff the pruned deque holds
strictly fewer than `max_calls` entries, appending `now` on grant. -/
def RateLimiter.allow (rl : RateLimiter) (now : ℚ) : Bool × RateLimiter :=
  let p := rl.pruned now
  if rl.max_calls ≤ p.length then (false, { rl with calls := p })
  else (true, { rl with calls := p ++ [now] })

/-- Run a sequence of `allow` calls at the given instants, collecting each
instant paired with its grant flag. -/
def runAcquires (rl : RateLimiter) : List ℚ → List (ℚ × Bool) × RateLimiter
  | [] => ([], rl)
  | t :: ts =>
      match rl.allow t with
      | (ok, rl2) =>
          match runAcquires rl2 ts with
          | (rest, rlF) => ((t, ok) :: rest, rlF)

/-- The instants of the successful acquisitions of a run. -/
def successTimes (rl : RateLimiter) (times : List ℚ) : List ℚ :=
  ((runAcquires rl times).1.filter (fun p => p.2)).map (fun p => p.1)

/-! ## `src/utils/validator.py`

`CODE_BLOCK_PATTERN = r"(triple-backtick)(?:python|py)?\s*\n(.*?)(triple-backtick)"`
with `re.DOTALL`, applied with `findall` (left-to-right, non-overlapping).
The matcher below implements exactly this pattern: the tag alternatives in
regex order, the greedy `\s*\n` (longest whitespace prefix ending at its
last newline), and the lazy body up to the first closing fence. -/

/-- Python `\s` on ASCII text (the unicode whitespace extension of `re`
does not affect the fence grammar). -/
def isPyWS (c : Char) : Bool :=
  c == ' ' || c == '\t' || c == '\n' || c == '\r' ||
    c == '\x0b' || c == '\x0c'

/-- Python `str.strip()` on the character list. -/
def pyStripChars (cs : List Char) : List Char :=
  ((cs.dropWhile isPyWS).reverse.dropWhile isPyWS).reverse

/-- Python `str.strip()`. -/
def pyStrip (s : String) : String := String.mk (pyStripChars s.data)

/-- Python `str.upper()` (ASCII range; sufficient for every cased
character the code compares). -/
def pyUpper (s : String) : String := String.mk (s.data.map Char.toUpper)

/-- Python `str.lower()` (ASCII range, as for `pyUpper`). -/
def pyLower (s : String) : String := String.mk (s.data.map Char.toLower)

/-- Substring test, Python `needle in hay`. -/
def containsSub : List Char → List Char → Bool
  | [], needle => needle.isEmpty
  | c :: t, needle => needle.isPrefixOf (c :: t) || containsSub t needle

/-- Consume the regex fragment `\s*\n` greedily: the longest whitespace
prefix whose next character is a newline, i.e. everything up to and
including the last newline of the leading whitespace run. Returns the
remainder, or `none` when the run holds no newline. -/
def matchWsNl (cs : List Char) : Option (List Char) :=
  let run := cs.takeWhile isPyWS
  match run.reverse.findIdx? (fun c => c == '\n') with
  | none => none
  | some i => some (cs.drop (run.length - i))

/-- Lazy `(.*?)` followed by a literal: split at the first occurrence of
`needle`, returning the body before it and the remainder after it. -/
def splitAtSub (hay needle : List Char) : Option (List Char × List Char) :=
  if needle.isPrefixOf hay then some ([], hay.drop needle.length)
  else
    match hay with
    | [] => none
    | c :: t => (splitAtSub t needle).map (fun p => (c :: p.1, p.2))

/-- One tag alternative of `(?:python|py)?` followed by `\s*\n(.*?)` and
the closing fence; `none` makes the engine backtrack to the next
alternative. -/
def tryTag (afterTicks : List Char) (tag : List Char) :
    Option (List Char × List Char) :=
  if tag.isPrefixOf afterTicks then
    match matchWsNl (afterTicks.drop tag.length) with
    | some rest => splitAtSub rest ("```".data)
    | none => none
  else none

/-- Attempt the whole fence pattern at the current position: the literal
opening fence, then the tag alternatives in regex order (`python`, `py`,
empty). Returns the captured body and the remainder after the closing
fence. -/
def matchFenceAt (cs : List Char) : Option (List Char × List Char) :=
  if ("```".data).isPrefixOf cs then
    let afterTicks := cs.drop 3
    match tryTag afterTicks ("python".data) with
    | some r => some r
    | none =>
        match tryTag afterTicks ("py".data) with
        | some r => some r
        | none => tryTag afterTicks []
  else none

/-- `re.findall` scan: left to right, non-overlapping; on a match continue
after the closing fence, otherwise advance one character. Fuel bounds the
scan by the input length. -/
def findBlocksAux : ℕ → List Char → List (List Char)
  | 0, _ => []
  | _ + 1, [] => []
  | fuel + 1, c :: rest =>
      match matchFenceAt (c :: rest) with
      | some (body, after) => body :: findBlocksAux fuel after
      | none => findBlocksAux fuel rest

/-- All bodies captured by `CODE_BLOCK_PATTERN.findall(text)`. -/
def findBlocks (text : String) : List (List Char) :=
  findBlocksAux text.data.length text.data

/-- `extract_code_blocks`: the stripped bodies, dropping falsy (empty)
ones. -/
def extract_code_blocks (text : String) : List String :=
  ((findBlocks text).map (fun b => String.mk (pyStripChars b))).filter
    (fun b => !(b == ""))

/-- Modelled from the spec: the spec describes the extraction as "fences of
the form triple-backtick with optional language tag", with no restriction
on which tag; this variant accepts any run of non-whitespace, non-backtick
characters as the tag. It exists only to compare the code's extractor
against the spec's words. -/
def matchFenceAtAnyTag (cs : List Char) : Option (List Char × List Char) :=
  if ("```".data).isPrefixOf cs then
    let afterTicks := cs.drop 3
    let tag := afterTicks.takeWhile (fun c => !(isPyWS c) && !(c == '\x60'))
    tryTag afterTicks tag
  else none

/-- Modelled from the spec: `findall` scan for `matchFenceAtAnyTag`. -/
def findBlocksAnyTagAux : ℕ → List Char → List (List Char)
  | 0, _ => []
  | _ + 1, [] => []
  | fuel + 1, c :: rest =>
      match matchFenceAtAnyTag (c :: rest) with
      | some (body, after) => body :: findBlocksAnyTagAux fuel after
      | none => findBlocksAnyTagAux fuel rest

/-- Modelled from the spec: extraction accepting every language tag. -/
def extract_code_blocks_spec (text : String) : List String :=
  ((findBlocksAnyTagAux text.data.length text.data).map
      (fun b => String.mk (pyStripChars b))).filter (fun b => !(b == ""))

/-- `ValidationResult` dataclass. -/
structure ValidationResult where
  valid : Bool
  has_code : Bool
  errors : List String
  code_blocks : List String
deriving DecidableEq

/-- `validate_syntax` wraps `ast.parse`, an external collaborator: the
oracle returns `none` for syntactically valid code and the formatted error
message otherwise. -/
def validate_syntax (astErr : String → Option String) (code : String) :
    Option String :=
  astErr code

/-- Error strings of the `Layer 1` loop: `[Block {i}/Syntax] {error}` for
each failing block, 1-based. -/
def syntaxErrors (astErr : String → Option String) (blocks : List String) :
    List String :=
  blocks.enum.filterMap
    (fun p =>
      match validate_syntax astErr p.2 with
      | none => none
      | some e => some ("[Block " ++ toString (p.1 + 1) ++ "/Syntax] " ++ e))

/-- Error strings of the opt-in sandbox layer (`execute_in_sandbox` is an
external collaborator given as an oracle). -/
def sandboxErrors (sbxErr : String → Option String) (blocks : List String) :
    List String :=
  blocks.enum.filterMap
    (fun p =>
      match sbxErr p.2 with
      | none => none
      | some e => some ("[Block " ++ toString (p.1 + 1) ++ "/Runtime] " ++ e))

/-- The error list of `validate_response`: Layer 1 syntax errors, then —
only opt-in and only when Layer 1 found none — the sandbox errors. -/
def validationErrors (astErr sbxErr : String → Option String)
    (run_sandbox : Bool) (blocks : List String) : List String :=
  if run_sandbox && (syntaxErrors astErr blocks).isEmpty then
    syntaxErrors astErr blocks ++ sandboxErrors sbxErr blocks
  else syntaxErrors astErr blocks

/-- `validate_response`: extract blocks; with none, pass trivially with
`has_code=false`; otherwise collect the error list and report. -/
def validate_response (astErr : String → Option String)
    (sbxErr : String → Option String) (run_sandbox : Bool)
    (response : String) : ValidationResult :=
  if (extract_code_blocks response).isEmpty then
    ⟨true, false, [], []⟩
  else
    ⟨(validationErrors astErr sbxErr run_sandbox
        (extract_code_blocks response)).isEmpty, true,
      validationErrors astErr sbxErr run_sandbox
        (extract_code_blocks response),
      extract_code_blocks response⟩

/-! ## `src/core/checkpoint.py`, failure handling (claim C5)

The storage engine (SQLite) is an external collaborator; `fails n` says
whether the n-th storage attempt of the operation would raise. The second
component counts the storage attempts the code actually makes. -/

/-- `save_checkpoint` with its `try/except`: a storage failure is logged
and re-raised (`raise`) — there is no retry, so only attempt 0 is ever
consulted. -/
def save_checkpoint_storage (fails : ℕ → Bool) (db : CheckpointStore)
    (state : AgentState) (checkpoint_type : CheckpointType) (label : String) :
    Except String CheckpointStore × ℕ :=
  if fails 0 then (Except.error "Checkpoint save failed", 1)
  else (Except.ok (save_checkpoint db state checkpoint_type label), 1)

/-- `load_checkpoint` with its `try/except`: a storage failure is logged
and swallowed, returning `None` — again a single attempt. -/
def load_checkpoint_storage (fails : ℕ → Bool) (db : CheckpointStore)
    (session_id : String) (step : Option ℤ) : Option AgentState × ℕ :=
  if fails 0 then (none, 1)
  else (load_checkpoint db session_id step, 1)

/-- Modelled from the spec: "Storage I/O failures are retried once with
exponential backoff; second failure is surfaced." No such retry exists in
`src/core/checkpoint.py`; this definition follows the spec's words to
compare behaviours. -/
def save_checkpoint_specRetry (fails : ℕ → Bool) (db : CheckpointStore)
    (state : AgentState) (checkpoint_type : CheckpointType) (label : String) :
    Except String CheckpointStore × ℕ :=
  if fails 0 then
    if fails 1 then (Except.error "Checkpoint save failed", 2)
    else (Except.ok (save_checkpoint db state checkpoint_type label), 2)
  else (Except.ok (save_checkpoint db state checkpoint_type label), 1)

/-! ## `src/agents/critic.py`

The chat provider and `json.loads` are external; an attempt is either a
raised call (`failure`) or a reply string together with what `json.loads`
yields on it. A reply that is valid JSON but not an object makes
`data.get` raise `AttributeError`, which the outer `except Exception`
treats like a failed call (`nonDict`). Fields with non-string values,
which would raise on `.upper()`, are outside the modelled fragment. -/

inductive CriticParse where
  | object (verdict : Option String) (reason : Option String)
      (suggestions : Option (List String))
  | nonDict
  | parseError

inductive CriticAttempt where
  | failure (err : String)
  | reply (content : String) (parsed : CriticParse)

/-- The dict returned by `critique`. -/
structure CriticResult where
  passed : Bool
  reason : String
  suggestions : List String
  raw_response : String
deriving DecidableEq

/-- `critique` over the list of attempt outcomes (the retry loop consumes
one outcome per iteration; `max_retries` is the list length). -/
def critique : List CriticAttempt → CriticResult
  | [] => ⟨true, "Critic skipped", [], ""⟩
  | CriticAttempt.failure err :: rest =>
      if rest.isEmpty then ⟨true, "Critic unavailable: " ++ err, [], ""⟩
      else critique rest
  | CriticAttempt.reply content parsed :: rest =>
      match parsed with
      | CriticParse.object v r s =>
          let verdict := pyUpper (v.getD "")
          let passed := verdict == "PASS"
          ⟨passed, r.getD "No reason provided",
            if passed then [] else s.getD [], content⟩
      | CriticParse.nonDict =>
          if rest.isEmpty then
            ⟨true, "Critic unavailable: AttributeError", [], ""⟩
          else critique rest
      | CriticParse.parseError =>
          let up := pyUpper content
          let passedMark := containsSub up.data ("[PASS]".data)
          let rejected := containsSub up.data ("[REJECT]".data)
          ⟨passedMark && !rejected, pyStrip content,
            if !passedMark || rejected then [pyStrip content] else [],
            content⟩

/-! ## `src/engine/adversarial.py`

Provider calls and `_parse_json_safe` are external; a judge outcome is
either a raised call (for which `_judge` substitutes the JSON object
`validity_score=0, verdict=APPROVE`) or a reply with the two fields
`_parse_json_safe` extraction yields: `validity_score` as
present-and-convertible (`some (some q)`), present-but-`float()`-raises
(`some none`), or absent/parse-failed (`none`); `verdict` as an optional
string. The attack phase never raises outward (its `except` returns a
fallback string), so its output is the oracle-supplied critique string.
The human-readable report and persona switching are presentational and
omitted. -/

inductive JudgeOutcome where
  | failure (err : String)
  | reply (text : String) (score : Option (Option ℚ)) (verdict : Option String)

inductive ReviseOutcome where
  | failure
  | reply (content : Option String)

structure RoundOracle where
  critique : String
  judge : JudgeOutcome
  revise : ReviseOutcome

/-- The validity score the run loop extracts from a round's judgment
(`get("validity_score", 10.0)` then `float()` with fallback `10.0`). -/
def judgeScore : JudgeOutcome → ℚ
  | JudgeOutcome.failure _ => 0
  | JudgeOutcome.reply _ score _ =>
      match score with
      | some (some q) => q
      | some none => 10
      | none => 10

/-- The verdict the run loop extracts (`get("verdict", "REVISE").upper()`). -/
def judgeVerdict : JudgeOutcome → String
  | JudgeOutcome.failure _ => pyUpper "APPROVE"
  | JudgeOutcome.reply _ _ v => pyUpper (v.getD "REVISE")

/-- `_revise`'s result: on a raised call keep the proposal; a falsy content
(`None` or the empty string, via `content or proposal`) also keeps it. -/
def applyRevise : ReviseOutcome → String → String
  | ReviseOutcome.failure, p => p
  | ReviseOutcome.reply none, p => p
  | ReviseOutcome.reply (some c), p => if c == "" then p else c

/-- A `DebateRound` record (parsed-dict fields reduced to the score and
verdict the loop extracts; raw judgment text dropped with them). -/
structure DebateRound where
  round_number : ℕ
  critique : String
  validity_score : ℚ
  verdict : String
  revision : String

/-- A `DebateResult` (the `report` string is presentational and omitted). -/
structure DebateResult where
  final_proposal : String
  approved : Bool
  total_rounds : ℕ
  rounds : List DebateRound
  escalated : Bool

/-- The body of `DebateLoop.run`'s `for round_num in range(1, max_rounds+1)`
loop; `fuel` counts the remaining iterations, so the current round number
is `max_rounds - fuel + 1` (written `max_rounds - f` at pattern `f + 1`).
Reaching fuel 0 is the loop's fall-through: force-approve the latest
revision. -/
def debateGo (oracle : ℕ → RoundOracle) (threshold : ℚ) (max_rounds : ℕ) :
    ℕ → String → List DebateRound → DebateResult
  | 0, current, acc => ⟨current, true, max_rounds, acc, false⟩
  | f + 1, current, acc =>
      let round_num := max_rounds - f
      let o := oracle round_num
      let score := judgeScore o.judge
      let verdict := judgeVerdict o.judge
      if verdict == "ESCALATE" then
        ⟨current, false, round_num,
          acc ++ [⟨round_num, o.critique, score, verdict, ""⟩], true⟩
      else if score < threshold ∨ verdict == "APPROVE" then
        ⟨current, true, round_num,
          acc ++ [⟨round_num, o.critique, score, verdict, ""⟩], false⟩
      else if round_num < max_rounds then
        let revision := applyRevise o.revise current
        debateGo oracle threshold max_rounds f revision
          (acc ++ [⟨round_num, o.critique, score, verdict, revision⟩])
      else
        debateGo oracle threshold max_rounds f current
          (acc ++ [⟨round_num, o.critique, score, verdict, ""⟩])

/-- `DebateLoop.run(proposal, task, max_rounds, approval_threshold)`. -/
def runDebate (oracle : ℕ → RoundOracle) (proposal : String)
    (max_rounds : ℕ) (threshold : ℚ) : DebateResult :=
  debateGo oracle threshold max_rounds max_rounds proposal []

/-- The proposal after the revisions of rounds `1 .. n` (the "latest
revision" once rounds `1 .. n` have revised in order). -/
def reviseUpTo (oracle : ℕ → RoundOracle) (proposal : String) (n : ℕ) :
    String :=
  (List.range' 1 n).foldl
    (fun cur i => applyRevise (oracle i).revise cur) proposal

/-! ## `src/utils/semantic_cache.py`

`NON_CACHEABLE_PATTERNS` are fixed regexes applied with `re.search` and
`re.IGNORECASE`; they are implemented concretely below (case-insensitivity
via ASCII lowercasing, which covers every cased character the patterns
contain). The embedding model and the ChromaDB nearest-neighbour query are
external oracles; the collection is the list of stored entries. -/

/-- Keywords of the first pattern (alternation of literals). -/
def dynamicKeywords : List String :=
  ["코드", "code", "구현", "implement", "작성", "write", "debug",
    "디버깅", "fix", "수정"]

/-- Keywords of the file-mention pattern. -/
def fileKeywords : List String := ["파일", "file", "프로젝트", "project"]

/-- Extensions of the file-mention pattern. -/
def fileExts : List String := ["py", "ts", "js", "yaml", "json", "md"]

/-- Does `cs` start with a literal dot followed by one of the extensions?
(the `\.(py|ts|js|yaml|json|md)` tail). -/
def dotExtAt (cs : List Char) : Bool :=
  match cs with
  | '.' :: rest => fileExts.any (fun e => e.data.isPrefixOf rest)
  | _ => false

/-- The `.*\.(ext)` tail: without DOTALL, `.` cannot cross a newline, so
scan forward for the dot-extension before any newline. -/
def scanDotExt : List Char → Bool
  | [] => dotExtAt []
  | c :: rest => dotExtAt (c :: rest) || (!(c == '\n') && scanDotExt rest)

/-- `re.search` of the file-mention pattern: some occurrence of a file
keyword followed, newline-free, by a dot-extension. -/
def matchFilePattern (cs : List Char) : Bool :=
  (fileKeywords.any (fun w =>
      w.data.isPrefixOf cs && scanDotExt (cs.drop w.data.length))) ||
    match cs with
    | [] => false
    | _ :: rest => matchFilePattern rest

/-- `SemanticCache._is_cacheable`: no dynamic pattern matches the query. -/
def is_cacheable (query : String) : Bool :=
  let hay := (pyLower query).data
  !(dynamicKeywords.any (fun w => containsSub hay w.data) ||
    matchFilePattern hay ||
    containsSub hay ("[escalate]".data) ||
    (["리팩토링", "refactor"].any (fun w => containsSub hay w.data)) ||
    (match query.data with
     | '/' :: _ => true
     | [] => false
     | _ :: _ => false))

/-- A stored `(response, embedding)` entry; `metadatas`/ids are irrelevant
to the claims and carried as the id string. -/
structure CacheEntry where
  id : String
  document : String
  embedding : List ℚ

/-- `SemanticCache` state: `_enabled`, and `collection` (`none` models the
`self.collection = None` of a failed init). -/
structure SemanticCache where
  threshold : ℚ
  enabled : Bool
  collection : Option (List CacheEntry)

/-- `SemanticCache.get`: disabled or collection-less caches miss; the
cacheability gate short-circuits; otherwise the nearest neighbour (an
oracle over the stored entries, returning document and cosine distance)
hits iff `1 - distance ≥ threshold`. -/
def SemanticCache.get (c : SemanticCache) (encode : String → List ℚ)
    (nearest : List CacheEntry → List ℚ → Option (String × ℚ))
    (query : String) : Option String :=
  if !c.enabled then none
  else
    match c.collection with
    | none => none
    | some coll =>
        if !is_cacheable query then none
        else
          match nearest coll (encode query) with
          | none => none
          | some (doc, dist) =>
              if c.threshold ≤ 1 - dist then some doc else none

/-- `SemanticCache.put`: same guards as `get`; a cacheable pair is appended
to the collection under a fresh (external) uuid. -/
def SemanticCache.put (c : SemanticCache) (encode : String → List ℚ)
    (newId : String) (query response : String) : SemanticCache :=
  if !c.enabled then c
  else
    match c.collection with
    | none => c
    | some coll =>
        if !is_cacheable query then c
        else
          { c with
            collection := some (coll ++ [⟨newId, response, encode query⟩]) }

/-! ## `src/agents/worker.py`, `_generate_response` tool loop

The provider is an oracle over the current message list. A tool call
carries the parse outcome of `json.loads(tool_call.function.arguments)`
(`none` = the loads raises, which the step's `except` turns into a `None`
return). Tools are a name-indexed map of result functions
(`validate_and_execute` plus `str(...)` collapsed into the oracle). -/

def MAX_TOOL_STEPS : ℕ := 5

structure WToolCall where
  id : String
  name : String
  arguments : Option JVal

inductive WMessage where
  | basic (role : String) (content : String)
  | assistant (content : String) (tool_calls : List WToolCall)
  | tool (tool_call_id : String) (content : String)

inductive ChatOutcome where
  | failure
  | success (content : Option String) (tool_calls : List WToolCall)

/-- The per-response tool dispatch: parse each call's arguments (a parse
failure raises out of the step), look the tool up (`tools_map.get`), and
produce the `tool`-role messages in call order. -/
def execToolCalls (tools : List (String × (JVal → String))) :
    List WToolCall → Option (List WMessage)
  | [] => some []
  | tc :: rest =>
      match tc.arguments with
      | none => none
      | some args =>
          let result :=
            match (tools.find? (fun p => p.1 == tc.name)).map (fun p => p.2)
              with
            | some f => f args
            | none => "Error: Tool not found: " ++ tc.name
          (execToolCalls tools rest).map
            (fun ms => WMessage.tool tc.id result :: ms)

/-- The `for step in range(MAX_TOOL_STEPS)` react loop: call the provider;
a raise returns `None`; no tool calls returns the content; otherwise
append the assistant message and the tool results and continue. Falling
off the loop returns `None`. -/
def generateLoop (provider : List WMessage → ChatOutcome)
    (tools : List (String × (JVal → String))) :
    ℕ → List WMessage → Option String
  | 0, _ => none
  | fuel + 1, messages =>
      match provider messages with
      | ChatOutcome.failure => none
      | ChatOutcome.success content tcs =>
          let c := content.getD ""
          if tcs.isEmpty then some c
          else
            match execToolCalls tools tcs with
            | none => none
            | some toolMsgs =>
                generateLoop provider tools fuel
                  (messages ++ [WMessage.assistant c tcs] ++ toolMsgs)

/-- `Worker._generate_response`'s loop, entered with the built message
list and the full step budget. -/
def generate_response (provider : List WMessage → ChatOutcome)
    (tools : List (String × (JVal → String))) (messages : List WMessage) :
    Option String :=
  generateLoop provider tools MAX_TOOL_STEPS messages

/-! ## Claim C1 — the SUSPENDED ⇔ hitl_context invariant under HITL ops -/

/-- The spec's invariant: `status == SUSPENDED` ⇔ `hitl_context` non-empty. -/
def hitlInvariant (st : AgentState) : Prop :=
  st.status = SessionStatus.SUSPENDED ↔ st.hitl_context ≠ []

theorem suspend_hitl_context_ne_nil (st : AgentState) (reason now : String)
    (ctx : List (String × JVal)) :
    (st.suspend reason now ctx).hitl_context ≠ [] := by
  have h2 :=
    length_le_dictUpdate
      [("reason", JVal.str reason), ("suspended_at", JVal.str now)] ctx
  intro heq
  simp only [AgentState.suspend] at heq
  rw [heq] at h2
  simp at h2

theorem patchOne_status (acc : AgentState) (k : String) (v : JVal)
    (acc2 : AgentState) (h : patchOne acc k v = some acc2) :
    acc2.status = acc.status := by
  unfold patchOne at h
  split at h
  · cases v with
    | obj kvs => injection h with h; rw [← h]
    | str s => exact Option.noConfusion h
    | num q => exact Option.noConfusion h
    | boolean b => exact Option.noConfusion h
    | null => exact Option.noConfusion h
    | arr xs => exact Option.noConfusion h
  · split at h
    · cases v with
      | obj kvs => injection h with h; rw [← h]
      | str s => exact Option.noConfusion h
      | num q => exact Option.noConfusion h
      | boolean b => exact Option.noConfusion h
      | null => exact Option.noConfusion h
      | arr xs => exact Option.noConfusion h
    · injection h with h
      rw [← h]

theorem patchAll_status (l : List (String × JVal)) :
    ∀ (acc acc2 : AgentState), patchAll acc l = some acc2 →
      acc2.status = acc.status := by
  induction l with
  | nil => intro acc acc2 h; simp only [patchAll] at h; injection h with h; rw [h]
  | cons kv rest ih =>
      intro acc acc2 h
      simp only [patchAll] at h
      cases hp : patchOne acc kv.1 kv.2 with
      | none => rw [hp] at h; exact absurd h (by simp)
      | some acc1 =>
          rw [hp] at h
          exact (ih acc1 acc2 h).trans (patchOne_status acc kv.1 kv.2 acc1 hp)

theorem resume_running_and_clear (st : AgentState)
    (data : List (String × JVal)) (st2 : AgentState)
    (h : st.resume data = some st2) :
    st2.status = SessionStatus.RUNNING ∧ st2.hitl_context = [] := by
  unfold AgentState.resume at h
  cases hp : patchAll { st with status := SessionStatus.RUNNING } data with
  | none => rw [hp] at h; exact absurd h (by simp)
  | some st1 =>
      rw [hp] at h
      injection h with h
      subst h
      exact ⟨patchAll_status data _ st1 hp, rfl⟩

/-- Claim C1 (amended): `suspend` establishes the invariant and any state
actually returned by `HITLManager.resume` (the approve/modify paths)
satisfies it; but on `reject` nothing is returned and the persisted
MILESTONE state keeps the loaded state's `hitl_context` unchanged while
its status becomes FAILED — so of the biconditional only the direction
`SUSPENDED → non-empty` survives the reject path. -/
theorem hitl_invariant_amended (st : AgentState) (reason now : String)
    (ctx : List (String × JVal)) (db : CheckpointStore)
    (pending : List (String × PendingInfo)) (sid action : String)
    (data : Option (List (String × JVal))) :
    hitlInvariant (st.suspend reason now ctx) ∧
    (∀ (r : HITLResumeResult) (st2 : AgentState),
      hitlResume db pending sid action data = some r →
      r.result = some st2 → hitlInvariant st2) ∧
    (∀ st0 : AgentState, load_checkpoint db sid none = some st0 →
      hitlResume db pending sid "reject" none =
        some ⟨none,
          save_checkpoint db { st0 with status := SessionStatus.FAILED }
            CheckpointType.MILESTONE "HITL: Rejected by human",
          dictErase pending sid⟩ ∧
      ({ st0 with status := SessionStatus.FAILED } : AgentState).status ≠
        SessionStatus.SUSPENDED ∧
      ({ st0 with status := SessionStatus.FAILED } : AgentState).hitl_context
        = st0.hitl_context) := by
  refine ⟨?_, ?_, ?_⟩
  · constructor
    · intro _; exact suspend_hitl_context_ne_nil st reason now ctx
    · intro _; rfl
  · intro r st2 hr hres
    unfold hitlResume at hr
    cases hload : load_checkpoint db sid none with
    | none =>
        rw [hload] at hr
        injection hr with hr
        subst hr
        simp at hres
    | some state =>
        rw [hload] at hr
        by_cases hact : (action == "reject") = true
        · simp only [hact, if_true] at hr
          injection hr with hr
          subst hr
          simp at hres
        · simp only [hact, Bool.false_eq_true, if_false] at hr
          generalize hp : (match data with
              | some d => if action == "modify" && !d.isEmpty then d else []
              | none => ([] : List (String × JVal))) = patchL at hr
          cases hres2 : state.resume patchL with
          | none => rw [hres2] at hr; exact Option.noConfusion hr
          | some stR =>
              rw [hres2] at hr
              injection hr with hr
              subst hr
              simp only at hres
              injection hres with hres
              subst hres
              have hrc := resume_running_and_clear state patchL _ hres2
              constructor
              · intro hs; rw [hrc.1] at hs; exact SessionStatus.noConfusion hs
              · intro hne; exact absurd hrc.2 hne
  · intro st0 hload
    refine ⟨?_, by simp, rfl⟩
    unfold hitlResume
    rw [hload]
    simp

/-- Witness for C1's amended theorem: a concrete suspend, approve-resume
and reject-resume, with every hypothesis discharged by evaluation. -/
theorem hitl_invariant_amended_witness :
    hitlInvariant
      (({ session_id := "s" } : AgentState).suspend "risky" "t0" []) ∧
    hitlInvariant
      (({ session_id := "s", status := SessionStatus.SUSPENDED,
          hitl_context := [("reason", JVal.str "risky")] } :
            AgentState).resume []).get! := by
  have h := hitl_invariant_amended { session_id := "s" } "risky" "t0" []
    (save_checkpoint CheckpointStore.empty
      { session_id := "s", status := SessionStatus.SUSPENDED,
        hitl_context := [("reason", JVal.str "risky")] }
      CheckpointType.TRANSACTION "HITL: risky")
    [] "s" "approve" none
  refine ⟨h.1, ?_⟩
  exact h.2.1 ⟨some _, _, _⟩ _ rfl rfl

/-- Counterexample input for C1 as stated: the store and pending map right
after suspending a fresh session. -/
def c1_store : CheckpointStore :=
  (hitlSuspend CheckpointStore.empty [] { session_id := "s" }
    "risky" "t0" []).2.1

/-- The (latest, hence MILESTONE "rejected") state persisted after
`resume(action="reject")` on `c1_store`. -/
def c1_persisted : Option AgentState :=
  (hitlResume c1_store
      (hitlSuspend CheckpointStore.empty [] { session_id := "s" }
        "risky" "t0" []).2.2 "s" "reject" none).bind
    (fun r => load_checkpoint r.store "s" none)

/-- Counterexample to C1 as stated: after `suspend` then
`resume(action="reject")`, the persisted state has status FAILED yet a
non-empty `hitl_context`, so the biconditional invariant fails on it. -/
theorem hitl_reject_invariant_counterexample :
    c1_persisted =
      some { session_id := "s", status := SessionStatus.FAILED,
             hitl_context := [("reason", JVal.str "risky"),
               ("suspended_at", JVal.str "t0")] } ∧
    ¬ hitlInvariant
      { session_id := "s", status := SessionStatus.FAILED,
        hitl_context := [("reason", JVal.str "risky"),
          ("suspended_at", JVal.str "t0")] } := by
  constructor
  · rfl
  · intro h
    have := h.mpr (by simp)
    exact SessionStatus.noConfusion this

/-! ## Claim C2 — rollback semantics of the checkpoint store -/

theorem latestStep_isSome (acc : Option CheckpointRow) (r : CheckpointRow) :
    (latestStep acc r).isSome := by
  cases acc with
  | none => rfl
  | some b =>
      simp only [latestStep]
      split <;> rfl

theorem maxIdStep_isSome (acc : Option CheckpointRow) (r : CheckpointRow) :
    (maxIdStep acc r).isSome := by
  cases acc with
  | none => rfl
  | some b =>
      simp only [maxIdStep]
      split <;> rfl

theorem foldl_latestStep_isSome (l : List CheckpointRow) :
    ∀ b : CheckpointRow, (l.foldl latestStep (some b)).isSome := by
  induction l with
  | nil => intro b; rfl
  | cons x xs ih =>
      intro b
      simp only [List.foldl_cons]
      cases hs : latestStep (some b) x with
      | none => exact absurd hs (by have := latestStep_isSome (some b) x; simp_all)
      | some c => exact ih c

theorem foldl_maxIdStep_isSome (l : List CheckpointRow) :
    ∀ b : CheckpointRow, (l.foldl maxIdStep (some b)).isSome := by
  induction l with
  | nil => intro b; rfl
  | cons x xs ih =>
      intro b
      simp only [List.foldl_cons]
      cases hs : maxIdStep (some b) x with
      | none => exact absurd hs (by have := maxIdStep_isSome (some b) x; simp_all)
      | some c => exact ih c

theorem pickLatest_isSome (l : List CheckpointRow) (h : l ≠ []) :
    (pickLatest l).isSome := by
  cases l with
  | nil => exact absurd rfl h
  | cons x xs =>
      show (List.foldl latestStep (latestStep none x) xs).isSome
      exact foldl_latestStep_isSome xs x

theorem pickMaxId_isSome (l : List CheckpointRow) (h : l ≠ []) :
    (pickMaxId l).isSome := by
  cases l with
  | nil => exact absurd rfl h
  | cons x xs =>
      show (List.foldl maxIdStep (maxIdStep none x) xs).isSome
      exact foldl_maxIdStep_isSome xs x

theorem foldl_latestStep_mem (l : List CheckpointRow) :
    ∀ (acc : Option CheckpointRow) (r : CheckpointRow),
      l.foldl latestStep acc = some r → acc = some r ∨ r ∈ l := by
  induction l with
  | nil => intro acc r h; exact Or.inl h
  | cons x xs ih =>
      intro acc r h
      simp only [List.foldl_cons] at h
      rcases ih (latestStep acc x) r h with h1 | h2
      · cases acc with
        | none =>
            simp only [latestStep] at h1
            injection h1 with h1
            exact Or.inr (h1 ▸ List.mem_cons_self x xs)
        | some b =>
            simp only [latestStep] at h1
            split at h1
            · injection h1 with h1
              exact Or.inr (h1 ▸ List.mem_cons_self x xs)
            · exact Or.inl h1
      · exact Or.inr (List.mem_cons_of_mem x h2)

theorem foldl_latestStep_ge (l : List CheckpointRow) :
    ∀ (acc : Option CheckpointRow) (r : CheckpointRow),
      l.foldl latestStep acc = some r →
      (∀ b, acc = some b → b.step_number ≤ r.step_number) ∧
      (∀ x ∈ l, x.step_number ≤ r.step_number) := by
  induction l with
  | nil =>
      intro acc r h
      refine ⟨?_, by simp⟩
      intro b hb
      rw [hb] at h
      injection h with h
      rw [h]
  | cons x xs ih =>
      intro acc r h
      simp only [List.foldl_cons] at h
      obtain ⟨ih1, ih2⟩ := ih (latestStep acc x) r h
      have hx : x.step_number ≤ r.step_number := by
        cases acc with
        | none => exact ih1 x rfl
        | some b =>
            simp only [latestStep] at ih1
            by_cases hc : b.step_number < x.step_number ∨
                (b.step_number = x.step_number ∧ b.id < x.id)
            · exact ih1 x (by simp [hc])
            · have hb := ih1 b (by simp [hc])
              push_neg at hc
              exact le_trans hc.1 hb
      refine ⟨?_, ?_⟩
      · intro b hb
        subst hb
        simp only [latestStep] at ih1
        by_cases hc : b.step_number < x.step_number ∨
            (b.step_number = x.step_number ∧ b.id < x.id)
        · rcases hc with hlt | ⟨heq, _⟩
          · exact le_trans (le_of_lt hlt) hx
          · exact heq ▸ hx
        · exact ih1 b (by simp [hc])
      · intro y hy
        rcases List.mem_cons.mp hy with hyx | hyxs
        · exact hyx ▸ hx
        · exact ih2 y hyxs

theorem mem_insertByStepId (r a : CheckpointRow) (l : List CheckpointRow) :
    a ∈ insertByStepId r l ↔ a = r ∨ a ∈ l := by
  induction l with
  | nil => simp [insertByStepId]
  | cons x xs ih =>
      simp only [insertByStepId]
      split
      · simp [List.mem_cons]
      · simp only [List.mem_cons, ih]
        tauto

theorem mem_foldr_insertByStepId (l : List CheckpointRow) (a : CheckpointRow) :
    a ∈ l.foldr insertByStepId [] ↔ a ∈ l := by
  induction l with
  | nil => simp
  | cons x xs ih =>
      simp only [List.foldr_cons, mem_insertByStepId, ih, List.mem_cons]

/-- Claim C2: when the store holds a checkpoint for session `s` at step
`k`, `rollback(s, k)` succeeds; afterwards `list(s)` holds only
checkpoints with step ≤ k, and a step-less `load(s)` selects a row at
exactly step k. The final conjunct is the all-or-nothing law for every
store: either the load succeeds and exactly the rows with step > k are
deleted, or the load fails and the store is untouched. -/
theorem rollback_spec (db : CheckpointStore) (s : String) (k : ℤ)
    (h : ∃ r ∈ db.rows, r.session_id = s ∧ r.step_number = k) :
    (rollback db s k).1.isSome = true ∧
    (∀ r ∈ list_checkpoints (rollback db s k).2 s, r.step_number ≤ k) ∧
    (∃ r', load_checkpoint_row (rollback db s k).2 s none = some r' ∧
      r'.step_number = k) ∧
    (∀ db2 : CheckpointStore,
      ((rollback db2 s k).1.isSome = true ∧
        (rollback db2 s k).2.rows = db2.rows.filter
          (fun r => !(r.session_id == s && decide (k < r.step_number)))) ∨
      ((rollback db2 s k).1 = none ∧ (rollback db2 s k).2 = db2)) := by
  obtain ⟨r0, hr0mem, hr0s, hr0k⟩ := h
  -- the load at step k succeeds
  have hcand : r0 ∈ db.rows.filter
      (fun r => r.session_id == s && r.step_number == k) := by
    simp only [List.mem_filter, Bool.and_eq_true, beq_iff_eq]
    exact ⟨hr0mem, hr0s, hr0k⟩
  have hloadrow : (load_checkpoint_row db s (some k)).isSome := by
    unfold load_checkpoint_row
    exact pickMaxId_isSome _ (List.ne_nil_of_mem hcand)
  have hload : (load_checkpoint db s (some k)).isSome := by
    unfold load_checkpoint
    cases hlr : load_checkpoint_row db s (some k) with
    | none => rw [hlr] at hloadrow; exact absurd hloadrow (by simp)
    | some rr => simp
  obtain ⟨st, hst⟩ := Option.isSome_iff_exists.mp hload
  have hroll : rollback db s k =
      (some st,
        { db with rows := (db.rows.filter
            (fun r => !(r.session_id == s && decide (k < r.step_number)))) }) := by
    unfold rollback
    rw [hst]
  -- membership in the rolled-back store bounds the step
  have hstep_bound : ∀ r ∈ (rollback db s k).2.rows,
      r.session_id = s → r.step_number ≤ k := by
    intro r hr hrs
    rw [hroll] at hr
    simp only [List.mem_filter, Bool.not_eq_true', Bool.and_eq_false_iff,
      beq_iff_eq, decide_eq_false_iff_not, not_lt, beq_eq_false_iff_ne,
      ne_eq] at hr
    rcases hr.2 with hns | hle
    · exact absurd hrs hns
    · exact hle
  -- r0 survives the rollback deletion
  have hr0surv : r0 ∈ (rollback db s k).2.rows := by
    rw [hroll]
    simp only [List.mem_filter, Bool.not_eq_true', Bool.and_eq_false_iff,
      decide_eq_false_iff_not, not_lt]
    exact ⟨hr0mem, Or.inr (le_of_eq hr0k)⟩
  refine ⟨by rw [hroll]; rfl, ?_, ?_, ?_⟩
  · -- list(s) only holds steps ≤ k
    intro r hr
    unfold list_checkpoints at hr
    rw [mem_foldr_insertByStepId] at hr
    simp only [List.mem_filter, beq_iff_eq] at hr
    exact hstep_bound r hr.1 hr.2
  · -- step-less load picks a row at exactly step k
    have hc2 : r0 ∈ (rollback db s k).2.rows.filter
        (fun r => r.session_id == s) := by
      simp only [List.mem_filter, beq_iff_eq]
      exact ⟨hr0surv, hr0s⟩
    have hsome : (pickLatest ((rollback db s k).2.rows.filter
        (fun r => r.session_id == s))).isSome :=
      pickLatest_isSome _ (List.ne_nil_of_mem hc2)
    obtain ⟨r', hr'⟩ := Option.isSome_iff_exists.mp hsome
    refine ⟨r', hr', ?_⟩
    have hmem := foldl_latestStep_mem _ none r' hr'
    rcases hmem with hbad | hmem
    · exact Option.noConfusion hbad
    · have hge := (foldl_latestStep_ge _ none r' hr').2 r0 hc2
      simp only [List.mem_filter, beq_iff_eq] at hmem
      have hle := hstep_bound r' hmem.1 hmem.2
      rw [hr0k] at hge
      exact le_antisymm hle hge
  · -- all-or-nothing for every store
    intro db2
    cases hld : load_checkpoint db2 s (some k) with
    | none =>
        right
        unfold rollback
        rw [hld]
        exact ⟨rfl, rfl⟩
    | some st2 =>
        left
        unfold rollback
        rw [hld]
        exact ⟨rfl, rfl⟩

/-- Witness for C2 at a concrete three-checkpoint store rolled back to
step 2. -/
def c2_store : CheckpointStore :=
  save_checkpoint
    (save_checkpoint
      (save_checkpoint CheckpointStore.empty
        { session_id := "s", step := 1 } CheckpointType.TRANSACTION "a")
      { session_id := "s", step := 2 } CheckpointType.MILESTONE "b")
    { session_id := "s", step := 3 } CheckpointType.TRANSACTION "c"

theorem rollback_spec_witness :
    (rollback c2_store "s" 2).1.isSome = true ∧
    ((load_checkpoint_row (rollback c2_store "s" 2).2 "s" none).map
      (fun r => r.step_number)) = some 2 := by
  have h := rollback_spec c2_store "s" 2
    ⟨⟨2, "s", 2, CheckpointType.MILESTONE, { session_id := "s", step := 2 },
      "b"⟩, by
        have he : c2_store.rows =
            [⟨1, "s", 1, CheckpointType.TRANSACTION,
              { session_id := "s", step := 1 }, "a"⟩,
             ⟨2, "s", 2, CheckpointType.MILESTONE,
              { session_id := "s", step := 2 }, "b"⟩,
             ⟨3, "s", 3, CheckpointType.TRANSACTION,
              { session_id := "s", step := 3 }, "c"⟩] := rfl
        rw [he]
        exact List.Mem.tail _ (List.Mem.head _), rfl, rfl⟩
  refine ⟨h.1, ?_⟩
  obtain ⟨r', hr', hk⟩ := h.2.2.1
  rw [hr']
  simp [hk]

/-! ## Claim C3 — behaviour of the tool loop at the step limit -/

/-- A provider that always answers successfully with text and a tool
call — the scenario of claim C3. -/
def c3_provider : List WMessage → ChatOutcome :=
  fun _ =>
    ChatOutcome.success (some "latest text") [⟨"id1", "t1", some JVal.null⟩]

/-- Counterexample to C3 as stated: with every provider call succeeding
and carrying tool calls, exhausting `MAX_TOOL_STEPS` yields `none` — the
failure signal — not the latest text content. -/
theorem tool_loop_limit_counterexample :
    generate_response c3_provider [] [] = none ∧
    ¬ generate_response c3_provider [] [] = some "latest text" := by
  refine ⟨rfl, ?_⟩
  intro h
  rw [show generate_response c3_provider [] [] = none from rfl] at h
  exact Option.noConfusion h

theorem generateLoop_all_tool_calls_none
    (provider : List WMessage → ChatOutcome)
    (tools : List (String × (JVal → String)))
    (h : ∀ ms : List WMessage, ∃ c tcs,
      provider ms = ChatOutcome.success c tcs ∧ tcs ≠ [] ∧
      ∀ tc ∈ tcs, tc.arguments.isSome) :
    ∀ (fuel : ℕ) (ms : List WMessage),
      generateLoop provider tools fuel ms = none := by
  intro fuel
  induction fuel with
  | zero => intro ms; rfl
  | succ n ih =>
      intro ms
      obtain ⟨c, tcs, hp, hne, -⟩ := h ms
      cases tcs with
      | nil => exact absurd rfl hne
      | cons tc rest =>
          unfold generateLoop
          rw [hp]
          simp only [List.isEmpty_cons, Bool.false_eq_true, if_false]
          cases hex : execToolCalls tools (tc :: rest) with
          | none => rfl
          | some ms2 => exact ih _

/-- Claim C3 (amended): when every provider call succeeds but each
response carries tool calls (with parseable arguments), the loop stops on
reaching `MAX_TOOL_STEPS = 5` and returns `None` — a failure signal the
caller treats as a worker failure — not the latest text content. -/
theorem tool_loop_limit_amended (provider : List WMessage → ChatOutcome)
    (tools : List (String × (JVal → String))) (messages : List WMessage)
    (h : ∀ ms : List WMessage, ∃ c tcs,
      provider ms = ChatOutcome.success c tcs ∧ tcs ≠ [] ∧
      ∀ tc ∈ tcs, tc.arguments.isSome) :
    MAX_TOOL_STEPS = 5 ∧ generate_response provider tools messages = none :=
  ⟨rfl, generateLoop_all_tool_calls_none provider tools h MAX_TOOL_STEPS
    messages⟩

/-- Witness for C3's amended theorem at the concrete always-tool-calling
provider. -/
theorem tool_loop_limit_amended_witness :
    MAX_TOOL_STEPS = 5 ∧ generate_response c3_provider [] [] = none :=
  tool_loop_limit_amended c3_provider [] []
    (fun _ =>
      ⟨some "latest text", [⟨"id1", "t1", some JVal.null⟩], rfl, by simp,
        by
          intro tc htc
          rw [List.mem_singleton] at htc
          subst htc
          rfl⟩)

/-! ## Claim C4 — the critic's parse policy -/

/-- Claim C4: with a JSON-object reply the verdict field decides
(`passed` iff it upper-cases to `PASS`); with a reply that fails to parse,
the bracketed markers decide (`[PASS]` present and `[REJECT]` absent,
case-insensitively), so total ambiguity yields REJECT; and when every
attempt raises, the result is PASS with empty suggestions. -/
theorem critic_parse_policy :
    (∀ (content : String) (v r : Option String)
        (s : Option (List String)) (rest : List CriticAttempt),
      (critique (CriticAttempt.reply content
        (CriticParse.object v r s) :: rest)).passed = true ↔
        pyUpper (v.getD "") = "PASS") ∧
    (∀ (content : String) (rest : List CriticAttempt),
      (critique (CriticAttempt.reply content
        CriticParse.parseError :: rest)).passed = true ↔
        (containsSub (pyUpper content).data ("[PASS]".data) = true ∧
          ¬ containsSub (pyUpper content).data ("[REJECT]".data) = true)) ∧
    (∀ msgs : List String,
      (critique (msgs.map CriticAttempt.failure)).passed = true ∧
      (critique (msgs.map CriticAttempt.failure)).suggestions = []) := by
  refine ⟨?_, ?_, ?_⟩
  · intro content v r s rest
    simp only [critique]
    constructor
    · intro h; exact (beq_iff_eq).mp h
    · intro h; exact (beq_iff_eq).mpr h
  · intro content rest
    simp only [critique, Bool.and_eq_true, Bool.not_eq_true']
    constructor
    · intro ⟨h1, h2⟩; exact ⟨h1, by rw [h2]; exact Bool.false_ne_true⟩
    · intro ⟨h1, h2⟩; exact ⟨h1, by simpa using h2⟩
  · intro msgs
    induction msgs with
    | nil => exact ⟨rfl, rfl⟩
    | cons m rest ih =>
        cases hr : rest with
        | nil => exact ⟨rfl, rfl⟩
        | cons m2 rest2 =>
            have : critique ((m :: rest).map CriticAttempt.failure) =
                critique (rest.map CriticAttempt.failure) := by
              rw [hr]
              simp only [List.map_cons, critique, List.isEmpty_cons,
                Bool.false_eq_true, if_false]
            rw [hr] at this ih
            rw [this]
            exact ih

/-- Witness for C4: a JSON PASS verdict passes, and an always-raising
critic passes. -/
theorem critic_parse_policy_witness :
    (critique [CriticAttempt.reply "resp"
      (CriticParse.object (some "PASS") none none)]).passed = true ∧
    (critique [CriticAttempt.failure "down"]).passed = true := by
  have h := critic_parse_policy
  exact ⟨(h.1 "resp" (some "PASS") none none []).mpr rfl,
    (h.2.2 ["down"]).1⟩

/-! ## Claim C5 — checkpoint storage failures are not retried -/

/-- A storage that fails on the first attempt and would succeed on a
retry. -/
def c5_fails : ℕ → Bool := fun n => n == 0

/-- Counterexample to C5 as stated: the save makes a single storage
attempt and surfaces that first failure, although the retry the spec
describes (`save_checkpoint_specRetry`, following the spec's words) would
have succeeded on the second attempt. -/
theorem checkpoint_retry_counterexample :
    c5_fails 1 = false ∧
    (save_checkpoint_storage c5_fails CheckpointStore.empty {}
      CheckpointType.TRANSACTION "").1 =
        Except.error "Checkpoint save failed" ∧
    (save_checkpoint_storage c5_fails CheckpointStore.empty {}
      CheckpointType.TRANSACTION "").2 = 1 ∧
    (save_checkpoint_specRetry c5_fails CheckpointStore.empty {}
      CheckpointType.TRANSACTION "").1 =
        Except.ok (save_checkpoint CheckpointStore.empty {}
          CheckpointType.TRANSACTION "") :=
  ⟨rfl, rfl, rfl, rfl⟩

/-- Claim C5 (amended): neither operation retries. `save_checkpoint` makes
exactly one storage attempt and surfaces its failure to the caller;
`load_checkpoint` makes exactly one attempt and swallows its failure into
a `None` result. -/
theorem checkpoint_storage_no_retry (fails : ℕ → Bool) (db : CheckpointStore)
    (state : AgentState) (ct : CheckpointType) (label : String)
    (sid : String) (stp : Option ℤ) :
    (save_checkpoint_storage fails db state ct label).2 = 1 ∧
    (load_checkpoint_storage fails db sid stp).2 = 1 ∧
    (fails 0 = true →
      (save_checkpoint_storage fails db state ct label).1 =
        Except.error "Checkpoint save failed" ∧
      (load_checkpoint_storage fails db sid stp).1 = none) ∧
    (fails 0 = false →
      (save_checkpoint_storage fails db state ct label).1 =
        Except.ok (save_checkpoint db state ct label) ∧
      (load_checkpoint_storage fails db sid stp).1 =
        load_checkpoint db sid stp) := by
  by_cases h : fails 0 = true
  · simp [save_checkpoint_storage, load_checkpoint_storage, h]
  · simp only [Bool.not_eq_true] at h
    simp [save_checkpoint_storage, load_checkpoint_storage, h]

/-- Witness for C5's amended theorem on an always-failing storage. -/
theorem checkpoint_storage_no_retry_witness :
    (save_checkpoint_storage (fun _ => true) CheckpointStore.empty {}
      CheckpointType.TRANSACTION "").2 = 1 ∧
    (save_checkpoint_storage (fun _ => true) CheckpointStore.empty {}
      CheckpointType.TRANSACTION "").1 =
        Except.error "Checkpoint save failed" ∧
    (load_checkpoint_storage (fun _ => true) CheckpointStore.empty "s" none).1 =
      none := by
  have h := checkpoint_storage_no_retry (fun _ => true) CheckpointStore.empty {}
    CheckpointType.TRANSACTION "" "s" none
  exact ⟨h.1, (h.2.2.1 rfl).1, (h.2.2.1 rfl).2⟩

/-! ## Claim C6 — which fenced blocks the validator checks -/

theorem filterMap_syntax_eq_nil (astErr : String → Option String) :
    ∀ (blocks : List String) (n : ℕ),
      ((List.enumFrom n blocks).filterMap
        (fun p =>
          match astErr p.2 with
          | none => none
          | some e =>
              some ("[Block " ++ toString (p.1 + 1) ++ "/Syntax] " ++ e))
        = []) ↔ ∀ b ∈ blocks, astErr b = none := by
  intro blocks
  induction blocks with
  | nil => intro n; simp
  | cons b bs ih =>
      intro n
      show ((List.filterMap _ ((n, b) :: List.enumFrom (n + 1) bs)) = []) ↔ _
      rw [List.filterMap_cons]
      cases hb : astErr b with
      | none =>
          simp only [hb]
          rw [ih (n + 1)]
          constructor
          · intro h c hc
            rcases List.mem_cons.mp hc with hcb | hcbs
            · exact hcb ▸ hb
            · exact h c hcbs
          · intro h c hc
            exact h c (List.mem_cons_of_mem b hc)
      | some e =>
          simp only [hb]
          constructor
          · intro h; exact absurd h (by simp)
          · intro h
            exact absurd (h b (List.mem_cons_self b bs)) (by simp [hb])

theorem syntaxErrors_eq_nil (astErr : String → Option String)
    (blocks : List String) :
    syntaxErrors astErr blocks = [] ↔ ∀ b ∈ blocks, astErr b = none :=
  filterMap_syntax_eq_nil astErr blocks 0

/-- Counterexample to C6 as stated: a fence tagged `javascript` with a
non-empty body matches the spec's "optional language tag" grammar
(`extract_code_blocks_spec`) but the code extracts nothing from it, and
the validator — even under an oracle that rejects every block — reports
`valid = true, has_code = false` with no errors. -/
theorem validator_anytag_counterexample :
    extract_code_blocks_spec "```javascript\nlet x = ;\n```" =
      ["let x = ;"] ∧
    extract_code_blocks "```javascript\nlet x = ;\n```" = [] ∧
    validate_response (fun _ => some "invalid syntax") (fun _ => none) false
      "```javascript\nlet x = ;\n```" = ⟨true, false, [], []⟩ :=
  ⟨rfl, rfl, rfl⟩

/-- Claim C6 (amended): the validator syntax-checks exactly the non-empty
stripped bodies of fences whose tag is empty, `python` or `py` — fences
with any other language tag are ignored entirely; an empty-bodied fence is
skipped; with no extracted block the result is trivially valid with
`has_code = false` and no errors. -/
theorem validator_amended (astErr sbxErr : String → Option String)
    (response : String) :
    (∀ b ∈ extract_code_blocks response, b ≠ "") ∧
    (extract_code_blocks response = [] →
      validate_response astErr sbxErr false response = ⟨true, false, [], []⟩) ∧
    (extract_code_blocks response ≠ [] →
      (validate_response astErr sbxErr false response).has_code = true ∧
      (validate_response astErr sbxErr false response).code_blocks =
        extract_code_blocks response ∧
      ((validate_response astErr sbxErr false response).valid = true ↔
        ∀ b ∈ extract_code_blocks response, astErr b = none)) := by
  refine ⟨?_, ?_, ?_⟩
  · intro b hb
    unfold extract_code_blocks at hb
    have := List.of_mem_filter hb
    simpa using this
  · intro h
    unfold validate_response
    rw [h]
    rfl
  · intro h
    have hne : (extract_code_blocks response).isEmpty = false := by
      cases hec : extract_code_blocks response with
      | nil => exact absurd hec h
      | cons x xs => rfl
    unfold validate_response
    rw [hne]
    simp only [Bool.false_eq_true, if_false]
    refine ⟨trivial, trivial, ?_⟩
    have hv : validationErrors astErr sbxErr false
        (extract_code_blocks response) =
        syntaxErrors astErr (extract_code_blocks response) := by
      unfold validationErrors
      simp
    rw [hv, List.isEmpty_iff]
    exact syntaxErrors_eq_nil astErr (extract_code_blocks response)

/-- Witness for C6's amended theorem: a checked `python` fence, and a
response with no extractable block. -/
theorem validator_amended_witness :
    (validate_response (fun _ => none) (fun _ => none) false
      "```python\nx=1\n```").has_code = true ∧
    (validate_response (fun _ => none) (fun _ => none) false
      "```python\nx=1\n```").valid = true ∧
    validate_response (fun _ => none) (fun _ => none) false "no code here" =
      ⟨true, false, [], []⟩ := by
  have h := validator_amended (fun _ => none) (fun _ => none)
    "```python\nx=1\n```"
  have hne : extract_code_blocks "```python\nx=1\n```" ≠ [] := by
    rw [show extract_code_blocks "```python\nx=1\n```" = ["x=1"] from rfl]
    exact List.cons_ne_nil _ _
  have h2 := validator_amended (fun _ => none) (fun _ => none) "no code here"
  exact ⟨(h.2.2 hne).1, ((h.2.2 hne).2.2).mpr (fun b _ => rfl), h2.2.1 rfl⟩

/-! ## Claim C8 — the semantic cache's cacheability gate -/

/-- Claim C8: `get` and `put` consult the same gate `is_cacheable` (a pure
function of the query, hence deterministic): a non-cacheable query makes
`get` miss and leaves `put` a no-op; a disabled cache misses on every
read; and on an enabled cache with a live collection a cacheable query
actually reaches the vector store. -/
theorem cache_gate (c : SemanticCache) (encode : String → List ℚ)
    (nearest : List CacheEntry → List ℚ → Option (String × ℚ))
    (q response newId : String) :
    (is_cacheable q = false →
      c.get encode nearest q = none ∧ c.put encode newId q response = c) ∧
    (c.enabled = false → c.get encode nearest q = none) ∧
    (∀ coll, c.enabled = true → c.collection = some coll →
      is_cacheable q = true →
      c.get encode nearest q =
        (match nearest coll (encode q) with
         | none => none
         | some (doc, dist) =>
             if c.threshold ≤ 1 - dist then some doc else none)) := by
  refine ⟨?_, ?_, ?_⟩
  · intro hq
    constructor
    · unfold SemanticCache.get
      cases he : c.enabled
      · simp
      · cases hc : c.collection with
        | none => simp
        | some coll => simp [hq]
    · unfold SemanticCache.put
      cases he : c.enabled
      · simp
      · cases hc : c.collection with
        | none => simp
        | some coll => simp [hq]
  · intro he
    unfold SemanticCache.get
    simp [he]
  · intro coll he hc hq
    unfold SemanticCache.get
    rw [he, hc]
    simp [hq]

/-- Witness for C8 at the non-cacheable query `fix the bug`, plus a
disabled-cache read. -/
theorem cache_gate_witness :
    SemanticCache.get ⟨(95 : ℚ) / 100, true, some []⟩ (fun _ => [])
      (fun _ _ => none) "fix the bug" = none ∧
    SemanticCache.put ⟨(95 : ℚ) / 100, true, some []⟩ (fun _ => [])
      "id0" "fix the bug" "resp" = ⟨(95 : ℚ) / 100, true, some []⟩ ∧
    SemanticCache.get ⟨(95 : ℚ) / 100, false, some []⟩ (fun _ => [])
      (fun _ _ => none) "hello" = none := by
  have h1 := cache_gate ⟨(95 : ℚ) / 100, true, some []⟩ (fun _ => [])
    (fun _ _ => none) "fix the bug" "resp" "id0"
  have h2 := cache_gate ⟨(95 : ℚ) / 100, false, some []⟩ (fun _ => [])
    (fun _ _ => none) "hello" "resp" "id0"
  exact ⟨(h1.1 rfl).1, (h1.1 rfl).2, h2.2.1 rfl⟩

/-! ## Claim C10 — judge-call failure resolves with availability bias -/

/-- Claim C10: when the moderator call of the round being processed
raises, the substituted judgment parses to validity_score 0 and verdict
APPROVE, and that round — whatever the loop's current state — returns
immediately with `approved = true`, `escalated = false` and the current
proposal as the final one. -/
theorem judge_failure_availability (oracle : ℕ → RoundOracle)
    (threshold : ℚ) (max_rounds fuel : ℕ) (current : String)
    (acc : List DebateRound) (e : String)
    (hj : (oracle (max_rounds - fuel)).judge = JudgeOutcome.failure e) :
    judgeScore (JudgeOutcome.failure e) = 0 ∧
    judgeVerdict (JudgeOutcome.failure e) = "APPROVE" ∧
    debateGo oracle threshold max_rounds (fuel + 1) current acc =
      ⟨current, true, max_rounds - fuel,
        acc ++ [⟨max_rounds - fuel, (oracle (max_rounds - fuel)).critique,
          0, "APPROVE", ""⟩],
        false⟩ := by
  refine ⟨rfl, rfl, ?_⟩
  unfold debateGo
  simp only [hj]
  rw [show judgeVerdict (JudgeOutcome.failure e) = "APPROVE" from rfl,
    show judgeScore (JudgeOutcome.failure e) = (0 : ℚ) from rfl]
  rw [if_neg (by decide)]
  exact if_pos (Or.inr rfl)

/-- Witness for C10: a three-round debate whose first moderator call
raises approves the original proposal in round 1. -/
theorem judge_failure_availability_witness :
    debateGo
      (fun _ => ⟨"attack", JudgeOutcome.failure "boom",
        ReviseOutcome.failure⟩) 7 3 3 "prop" [] =
      ⟨"prop", true, 1, [⟨1, "attack", 0, "APPROVE", ""⟩], false⟩ := by
  have h := judge_failure_availability
    (fun _ => ⟨"attack", JudgeOutcome.failure "boom", ReviseOutcome.failure⟩)
    7 3 2 "prop" [] "boom" rfl
  exact h.2.2

/-! ## Claim C7 — persistent REVISE runs to max_rounds and force-approves -/

theorem debateGo_all_revise (oracle : ℕ → RoundOracle) (threshold : ℚ)
    (max_rounds : ℕ)
    (h : ∀ n, 1 ≤ n → n ≤ max_rounds →
      judgeVerdict (oracle n).judge = "REVISE" ∧
      threshold ≤ judgeScore (oracle n).judge) :
    ∀ fuel : ℕ, fuel ≤ max_rounds →
      ∀ (current : String) (acc : List DebateRound),
      ∃ rds, debateGo oracle threshold max_rounds fuel current acc =
        ⟨(List.range' (max_rounds - fuel + 1) (fuel - 1)).foldl
            (fun cur i => applyRevise (oracle i).revise cur) current,
          true, max_rounds, rds, false⟩ := by
  intro fuel
  induction fuel with
  | zero =>
      intro _ current acc
      exact ⟨acc, rfl⟩
  | succ f ih =>
      intro hle current acc
      obtain ⟨hv, hs⟩ := h (max_rounds - f) (by omega) (by omega)
      have hc2 : ¬(judgeScore (oracle (max_rounds - f)).judge < threshold ∨
          (("REVISE" : String) == "APPROVE") = true) := by
        rintro (hlt | hb)
        · exact absurd hlt (not_lt.mpr hs)
        · exact absurd hb (by decide)
      cases f with
      | zero =>
          refine ⟨acc ++ [⟨max_rounds - 0, (oracle (max_rounds - 0)).critique,
            judgeScore (oracle (max_rounds - 0)).judge, "REVISE", ""⟩], ?_⟩
          unfold debateGo
          simp only [hv]
          rw [if_neg (by decide), if_neg hc2,
            if_neg (show ¬(max_rounds - 0 < max_rounds) by omega)]
          rfl
      | succ m =>
          obtain ⟨rds, hr⟩ := ih (by omega)
            (applyRevise (oracle (max_rounds - (m + 1))).revise current)
            (acc ++ [⟨max_rounds - (m + 1),
              (oracle (max_rounds - (m + 1))).critique,
              judgeScore (oracle (max_rounds - (m + 1))).judge, "REVISE",
              applyRevise (oracle (max_rounds - (m + 1))).revise current⟩])
          refine ⟨rds, ?_⟩
          unfold debateGo
          simp only [hv]
          rw [if_neg (by decide), if_neg hc2,
            if_pos (show max_rounds - (m + 1) < max_rounds by omega)]
          have hlist : List.range' (max_rounds - (m + 1 + 1) + 1)
              ((m + 1 + 1) - 1) =
              (max_rounds - (m + 1)) ::
                List.range' (max_rounds - (m + 1) + 1) m := by
            have e1 : max_rounds - (m + 1 + 1) + 1 = max_rounds - (m + 1) := by
              omega
            have e2 : (m + 1 + 1) - 1 = m + 1 := by omega
            rw [e1, e2, List.range'_succ]
          rw [hlist, List.foldl_cons]
          exact hr

/-- Claim C7: when every round's judgment extracts to verdict REVISE with
score at or above the threshold (the extraction defaulting to score 10 and
verdict REVISE when the judgment does not parse), the loop runs all
`max_rounds` rounds and force-approves the latest revision: approved,
not escalated, `total_rounds = max_rounds`, and the final proposal is the
result of the revisions of rounds `1 .. max_rounds - 1`. -/
theorem debate_all_revise_forces_approval (oracle : ℕ → RoundOracle)
    (proposal : String) (max_rounds : ℕ) (threshold : ℚ)
    (h : ∀ n, 1 ≤ n → n ≤ max_rounds →
      judgeVerdict (oracle n).judge = "REVISE" ∧
      threshold ≤ judgeScore (oracle n).judge) :
    (∀ (t : String) (v : Option String),
      judgeScore (JudgeOutcome.reply t none v) = 10) ∧
    (∀ (t : String) (s : Option (Option ℚ)),
      judgeVerdict (JudgeOutcome.reply t s none) = "REVISE") ∧
    (runDebate oracle proposal max_rounds threshold).approved = true ∧
    (runDebate oracle proposal max_rounds threshold).escalated = false ∧
    (runDebate oracle proposal max_rounds threshold).total_rounds =
      max_rounds ∧
    (runDebate oracle proposal max_rounds threshold).final_proposal =
      reviseUpTo oracle proposal (max_rounds - 1) := by
  obtain ⟨rds, hr⟩ := debateGo_all_revise oracle threshold max_rounds h
    max_rounds (le_refl _) proposal []
  have hrun : runDebate oracle proposal max_rounds threshold =
      ⟨(List.range' (max_rounds - max_rounds + 1) (max_rounds - 1)).foldl
          (fun cur i => applyRevise (oracle i).revise cur) proposal,
        true, max_rounds, rds, false⟩ := hr
  refine ⟨fun t v => rfl, fun t s => rfl, ?_, ?_, ?_, ?_⟩
  · rw [hrun]
  · rw [hrun]
  · rw [hrun]
  · rw [hrun]
    show (List.range' (max_rounds - max_rounds + 1) (max_rounds - 1)).foldl
        (fun cur i => applyRevise (oracle i).revise cur) proposal = _
    rw [Nat.sub_self]
    rfl

/-- A judge that always answers REVISE with score 9 and a reviser that
always produces `rev`. -/
def c7_oracle : ℕ → RoundOracle :=
  fun _ =>
    ⟨"attack", JudgeOutcome.reply "judgment" (some (some 9)) (some "REVISE"),
      ReviseOutcome.reply (some "rev")⟩

/-- Witness for C7 at a three-round always-REVISE debate. -/
theorem debate_all_revise_witness :
    (runDebate c7_oracle "p0" 3 7).approved = true ∧
    (runDebate c7_oracle "p0" 3 7).escalated = false ∧
    (runDebate c7_oracle "p0" 3 7).total_rounds = 3 ∧
    (runDebate c7_oracle "p0" 3 7).final_proposal = "rev" := by
  have h := debate_all_revise_forces_approval c7_oracle "p0" 3 7
    (fun n _ _ => ⟨rfl, by norm_num [judgeScore, c7_oracle]⟩)
  refine ⟨h.2.2.1, h.2.2.2.1, h.2.2.2.2.1, ?_⟩
  rw [h.2.2.2.2.2]
  rfl

/-! ## Claim C9 — the sliding-window rate limiter -/

theorem length_filter_mono {α : Type} (p q : α → Bool) (l : List α)
    (h : ∀ a ∈ l, p a = true → q a = true) :
    (l.filter p).length ≤ (l.filter q).length := by
  induction l with
  | nil => simp
  | cons x xs ih =>
      have ih2 := ih (fun a ha hp => h a (List.mem_cons_of_mem x ha) hp)
      by_cases hp : p x = true
      · have hq := h x (List.mem_cons_self x xs) hp
        simp only [List.filter_cons, hp, if_true, hq, List.length_cons]
        omega
      · have hp' : p x = false := by
          cases hpx : p x
          · rfl
          · exact absurd hpx hp
        by_cases hq : q x = true
        · simp only [List.filter_cons, hp', Bool.false_eq_true, if_false, hq,
            if_true, List.length_cons]
          omega
        · have hq' : q x = false := by
            cases hqx : q x
            · rfl
            · exact absurd hqx hq
          simp only [List.filter_cons, hp', hq', Bool.false_eq_true, if_false]
          exact ih2

theorem dropWhile_lt_eq_filter (c : ℚ) :
    ∀ l : List ℚ, l.Pairwise (· ≤ ·) →
      l.dropWhile (fun u => decide (u < c)) =
        l.filter (fun u => decide (c ≤ u)) := by
  intro l
  induction l with
  | nil => intro _; rfl
  | cons x xs ih =>
      intro hp
      rw [List.pairwise_cons] at hp
      obtain ⟨hx, hxs⟩ := hp
      by_cases hlt : x < c
      · have h1 : decide (x < c) = true := decide_eq_true hlt
        have h2 : decide (c ≤ x) = false := decide_eq_false (not_le.mpr hlt)
        rw [List.dropWhile_cons, List.filter_cons]
        simp only [h1, if_true, h2, Bool.false_eq_true, if_false]
        exact ih hxs
      · have hc : c ≤ x := not_lt.mp hlt
        have h1 : decide (x < c) = false := decide_eq_false hlt
        have h2 : decide (c ≤ x) = true := decide_eq_true hc
        rw [List.dropWhile_cons, List.filter_cons]
        simp only [h1, Bool.false_eq_true, if_false, h2, if_true]
        rw [List.filter_eq_self.mpr
          (fun a ha => decide_eq_true (le_trans hc (hx a ha)))]

theorem successTimes_cons (rl : RateLimiter) (t : ℚ) (ts : List ℚ) :
    successTimes rl (t :: ts) =
      (if (rl.allow t).1 = true then [t] else []) ++
        successTimes (rl.allow t).2 ts := by
  rcases hA : rl.allow t with ⟨ok, rl2⟩
  rcases hR : runAcquires rl2 ts with ⟨rest, rlF⟩
  have hrun : runAcquires rl (t :: ts) = ((t, ok) :: rest, rlF) := by
    unfold runAcquires
    rw [hA]
    dsimp only
    rw [hR]
  unfold successTimes
  rw [hrun, hR]
  cases ok
  · simp
  · simp

theorem runAcquires_window_bound (max_calls : ℕ) (window : ℚ)
    (h0 : 0 ≤ window) :
    ∀ (times succ calls : List ℚ) (T : ℚ),
      times.Pairwise (· ≤ ·) → (∀ t ∈ times, T ≤ t) →
      calls = succ.filter (fun s => decide (T - window ≤ s)) →
      succ.Pairwise (· ≤ ·) → (∀ s ∈ succ, s ≤ T) →
      (∀ b : ℚ, ((succ.filter (fun s => decide (b ≤ s) &&
        decide (s ≤ b + window))).length ≤ max_calls)) →
      ∀ a : ℚ,
        (((succ ++ successTimes ⟨max_calls, window, calls⟩ times).filter
          (fun s => decide (a ≤ s) && decide (s ≤ a + window))).length ≤
            max_calls) := by
  intro times
  induction times with
  | nil =>
      intro succ calls T _ _ _ _ _ hbound a
      simpa using hbound a
  | cons t ts ih =>
      intro succ calls T hpw hTt hcalls hsorted hsT hbound a
      rw [List.pairwise_cons] at hpw
      obtain ⟨hts, hpw'⟩ := hpw
      have hTt' : T ≤ t := hTt t (List.mem_cons_self _ _)
      have hsorted_calls : calls.Pairwise (· ≤ ·) := by
        rw [hcalls]
        exact List.Pairwise.sublist (List.filter_sublist succ) hsorted
      have hpruned : (⟨max_calls, window, calls⟩ : RateLimiter).pruned t =
          succ.filter (fun s => decide (t - window ≤ s)) := by
        show calls.dropWhile (fun u => decide (u < t - window)) = _
        rw [dropWhile_lt_eq_filter (t - window) calls hsorted_calls, hcalls,
          List.filter_filter]
        apply List.filter_congr
        intro s _
        by_cases h1 : t - window ≤ s
        · have h2 : T - window ≤ s := le_trans (by linarith) h1
          simp [h1, h2]
        · simp [h1]
      by_cases hgrant :
          max_calls ≤ (succ.filter (fun s => decide (t - window ≤ s))).length
      · -- the call is denied: the success list and limits carry over
        have hallow : (⟨max_calls, window, calls⟩ : RateLimiter).allow t =
            (false, ⟨max_calls, window,
              succ.filter (fun s => decide (t - window ≤ s))⟩) := by
          unfold RateLimiter.allow
          simp only [hpruned]
          rw [if_pos hgrant]
        have hsucc_eq :
            successTimes (⟨max_calls, window, calls⟩ : RateLimiter) (t :: ts) =
            successTimes ⟨max_calls, window,
              succ.filter (fun s => decide (t - window ≤ s))⟩ ts := by
          rw [successTimes_cons, hallow]
          simp
        rw [hsucc_eq]
        exact ih succ _ t hpw' hts rfl hsorted
          (fun s hs => le_trans (hsT s hs) hTt') hbound a
      · -- the call is granted: t joins the successes
        have hlen : (succ.filter
            (fun s => decide (t - window ≤ s))).length < max_calls :=
          not_le.mp hgrant
        have hallow : (⟨max_calls, window, calls⟩ : RateLimiter).allow t =
            (true, ⟨max_calls, window,
              succ.filter (fun s => decide (t - window ≤ s)) ++ [t]⟩) := by
          unfold RateLimiter.allow
          simp only [hpruned]
          rw [if_neg hgrant]
        have hsucc_eq :
            successTimes (⟨max_calls, window, calls⟩ : RateLimiter) (t :: ts) =
            t :: successTimes ⟨max_calls, window,
              succ.filter (fun s => decide (t - window ≤ s)) ++ [t]⟩ ts := by
          rw [successTimes_cons, hallow]
          simp
        rw [hsucc_eq,
          show succ ++ t :: successTimes ⟨max_calls, window,
              succ.filter (fun s => decide (t - window ≤ s)) ++ [t]⟩ ts =
            (succ ++ [t]) ++ successTimes ⟨max_calls, window,
              succ.filter (fun s => decide (t - window ≤ s)) ++ [t]⟩ ts
          from by simp]
        apply ih (succ ++ [t]) _ t hpw' hts ?_ ?_ ?_ ?_
        · -- the new deque is the filtered successes of the new list
          have ht : (fun s => decide (t - window ≤ s)) t = true :=
            decide_eq_true (by linarith)
          rw [List.filter_append, List.filter_cons, if_pos ht,
            List.filter_nil]
        · -- the new success list stays sorted
          rw [List.pairwise_append]
          exact ⟨hsorted, List.pairwise_singleton _ _,
            fun x hx y hy => by
              rw [List.mem_singleton] at hy
              exact hy ▸ le_trans (hsT x hx) hTt'⟩
        · -- every success is at or before the new clock value
          intro s hs
          rcases List.mem_append.mp hs with hs1 | hs2
          · exact le_trans (hsT s hs1) hTt'
          · rw [List.mem_singleton] at hs2
            exact le_of_eq hs2
        · -- the window bound still holds after adding t
          intro b
          rw [List.filter_append]
          by_cases hwb : b ≤ t ∧ t ≤ b + window
          · have hbt : ([t].filter (fun s => decide (b ≤ s) &&
                decide (s ≤ b + window))) = [t] := by
              simp [decide_eq_true hwb.1, decide_eq_true hwb.2]
            rw [hbt]
            have hmono2 : ((succ.filter (fun s => decide (b ≤ s) &&
                decide (s ≤ b + window))).length ≤
                (succ.filter (fun s => decide (t - window ≤ s))).length) := by
              apply length_filter_mono
              intro x _ hx
              rw [Bool.and_eq_true, decide_eq_true_eq, decide_eq_true_eq]
                at hx
              exact decide_eq_true (by
                have := hwb.2
                linarith [hx.1])
            rw [List.length_append]
            simp only [List.length_singleton]
            omega
          · have hbt : ([t].filter (fun s => decide (b ≤ s) &&
                decide (s ≤ b + window))) = [] := by
              rcases not_and_or.mp hwb with hb1 | hb2
              · simp [decide_eq_false hb1]
              · simp [decide_eq_false hb2]
            rw [hbt, List.append_nil]
            exact hbound b

/-- Claim C9: a single `allow` call on a time-sorted deque grants iff the
count of recorded timestamps still inside the window is strictly below
`max_calls`, appending "now" exactly when it grants; consequently, for a
run from a fresh limiter over monotone instants, any window `[a, a +
window]` contains at most `max_calls` successful acquisitions. -/
theorem rate_limiter_sliding_window (max_calls : ℕ) (window : ℚ)
    (times : List ℚ) (h0 : 0 ≤ window)
    (hmono : times.Pairwise (· ≤ ·)) :
    (∀ (rl : RateLimiter) (now : ℚ), rl.calls.Pairwise (· ≤ ·) →
      (((rl.allow now).1 = true) ↔
        (rl.calls.filter
          (fun u => decide (now - rl.window ≤ u))).length < rl.max_calls) ∧
      ((rl.allow now).1 = true →
        (rl.allow now).2.calls =
          rl.calls.filter (fun u => decide (now - rl.window ≤ u)) ++ [now])) ∧
    ∀ a : ℚ,
      ((successTimes (mkRateLimiter max_calls window) times).filter
        (fun s => decide (a ≤ s) && decide (s ≤ a + window))).length ≤
        max_calls := by
  constructor
  · intro rl now hsorted
    have hpr : rl.pruned now =
        rl.calls.filter (fun u => decide (now - rl.window ≤ u)) :=
      dropWhile_lt_eq_filter (now - rl.window) rl.calls hsorted
    constructor
    · unfold RateLimiter.allow
      simp only [hpr]
      by_cases hc : rl.max_calls ≤
          (rl.calls.filter (fun u => decide (now - rl.window ≤ u))).length
      · rw [if_pos hc]
        exact iff_of_false (by simp) (not_lt.mpr hc)
      · rw [if_neg hc]
        exact iff_of_true rfl (not_le.mp hc)
    · intro hg
      unfold RateLimiter.allow at hg ⊢
      simp only [hpr] at hg ⊢
      by_cases hc : rl.max_calls ≤
          (rl.calls.filter (fun u => decide (now - rl.window ≤ u))).length
      · rw [if_pos hc] at hg
        exact absurd hg (by simp)
      · rw [if_neg hc]
    -- run from the fresh limiter: instantiate the invariant with no
    -- successes and a lower bound of the clock
  · cases times with
    | nil => intro a; simp [successTimes, runAcquires]
    | cons t0 ts =>
        intro a
        have hTt : ∀ t ∈ t0 :: ts, t0 ≤ t := by
          intro x hx
          rcases List.mem_cons.mp hx with hx0 | hxs
          · exact le_of_eq hx0.symm
          · rw [List.pairwise_cons] at hmono
            exact hmono.1 x hxs
        have h := runAcquires_window_bound max_calls window h0 (t0 :: ts)
          [] [] t0 hmono hTt rfl (List.Pairwise.nil) (by simp)
          (fun b => by simp) a
        simpa using h

/-- Witness for C9: a concrete `allow` on `[0, 10]` with window 60 at
instant 70, and a run of three calls at instant 0 with capacity 2. -/
theorem rate_limiter_sliding_window_witness :
    (((⟨2, 60, [0, 10]⟩ : RateLimiter).allow 70).1 = true) ∧
    ((((⟨2, 60, [0, 10]⟩ : RateLimiter).allow 70).2.calls) =
      ([0, 10] : List ℚ).filter
        (fun u => decide ((70 : ℚ) - 60 ≤ u)) ++ [70]) ∧
    ((successTimes (mkRateLimiter 2 60) [0, 0, 0]).filter
      (fun s => decide ((0 : ℚ) ≤ s) && decide (s ≤ 0 + 60))).length ≤ 2 := by
  have H := rate_limiter_sliding_window 2 60 [0, 0, 0] (by norm_num)
    (by norm_num [List.pairwise_cons])
  have hsorted : ([0, 10] : List ℚ).Pairwise (· ≤ ·) := by
    norm_num [List.pairwise_cons]
  have h1 := H.1 ⟨2, 60, [0, 10]⟩ 70 hsorted
  have hg : (((⟨2, 60, [0, 10]⟩ : RateLimiter).allow 70).1 = true) :=
    h1.1.mpr (by
      show (List.filter (fun u => decide ((70 : ℚ) - 60 ≤ u))
        ([0, 10] : List ℚ)).length < 2
      norm_num [List.filter_cons])
  exact ⟨hg, h1.2 hg, H.2 0⟩

end AgenticFlow
